import Mathlib

/-!
Verification of the file-backed sample source `DataSource_file.py`
(`parse_filename` and the `Input` class).  Filenames are modelled as
`List Char`, Python floats as `ℚ`, and Python exceptions as an explicit
error type threaded through `Except`.
-/

set_option maxHeartbeats 1000000

/-- Python exceptions that can escape the modelled code paths. -/
inductive PyErr where
  | valueError (msg : List Char)
  | osError (msg : List Char)
  | indexError
  | waveError
  | attributeError
deriving DecidableEq

/-- Numeric value of a list of decimal digit characters (most significant first),
as computed by Python's `float`/`int` on a digit string. -/
def digitsVal (l : List Char) : ℕ :=
  l.foldl (fun a c => 10 * a + (c.toNat - 48)) 0

/-- Python `str.strip()`: drop whitespace from both ends. -/
def pyStrip (l : List Char) : List Char :=
  ((l.dropWhile Char.isWhitespace).reverse.dropWhile Char.isWhitespace).reverse

/-- Python `str.split('.')`: split on every dot, keeping empty fields. -/
def splitDot : List Char → List (List Char)
  | [] => [[]]
  | c :: t =>
    if c = '.' then [] :: splitDot t
    else
      match splitDot t with
      | [] => [[c]]
      | h :: r => (c :: h) :: r

/-- Join fields with a dot: the inverse of `splitDot` on dot-free fields. -/
def joinDot : List (List Char) → List Char
  | [] => []
  | [p] => p
  | p :: ps => p ++ '.' :: joinDot ps

/-- Does the second list start with the first one?  (Python prefix test.) -/
def leadsWith : List Char → List Char → Bool
  | [], _ => true
  | _ :: _, [] => false
  | a :: as, b :: bs => a = b && leadsWith as bs

/-- Python's substring test `pat in s`, as contiguous-subsequence search. -/
def containsSeq (pat : List Char) : List Char → Bool
  | [] => leadsWith pat []
  | c :: t => leadsWith pat (c :: t) || containsSeq pat t

/-- The list comprehension `[i for i, part in enumerate(parts) if 'cf' in part]`,
accumulating from a starting index. -/
def cfIdxs : List (List Char) → ℕ → List ℕ
  | [], _ => []
  | p :: ps, i =>
    if containsSeq ['c', 'f'] p then i :: cfIdxs ps (i + 1)
    else cfIdxs ps (i + 1)

/-- Python negative indexing `l[-k]` for `1 ≤ k ≤ l.length`. -/
def negGet (l : List (List Char)) (k : ℕ) : List Char :=
  l.getD (l.length - k) []

/-- Sign handling of Python `float()`: strip one leading `+` or `-` and
remember whether the value is negated. -/
def pySign : List Char → Bool × List Char
  | [] => (false, [])
  | c :: r =>
    if c = '+' then (false, r)
    else if c = '-' then (true, r)
    else (false, c :: r)

/-- Python `float()` restricted to the decimal forms that occur here:
optional sign, digits, optionally one dot with digits around it.
Returns `none` where Python raises `ValueError`. -/
def pyFloat (s : List Char) : Option ℚ :=
  let sgn := pySign (pyStrip s)
  match splitDot sgn.2 with
  | [a] =>
    if a ≠ [] ∧ a.all Char.isDigit then
      some (if sgn.1 then -((digitsVal a : ℚ)) else (digitsVal a : ℚ))
    else none
  | [a, b] =>
    if (a ++ b) ≠ [] ∧ (a ++ b).all Char.isDigit then
      some (if sgn.1 then -((digitsVal a : ℚ) + (digitsVal b : ℚ) / 10 ^ b.length)
            else (digitsVal a : ℚ) + (digitsVal b : ℚ) / 10 ^ b.length)
    else none
  | _ => none

/-- Modelled from the spec: the externally supplied catalogue of encoding tags
(`DataSource.supported_data_types` lives in the base-class module, which is not
part of this excerpt).  The spec names `8t`, `16tbe`, `16tle` as the catalogue. -/
def supported_data_types : List (List Char) :=
  [['8', 't'], ['1', '6', 't', 'b', 'e'], ['1', '6', 't', 'l', 'e']]

/-- `parse_filename` from `DataSource_file.py`.  Returns the tuple
`(ok, data_type, complex_flag, sample_rate_hz, centre_frequency)`;
an uncaught Python exception (the `IndexError` from `parts[index + 1]`,
which the `except ValueError` does not catch) surfaces as `.error`. -/
def parse_filename (filename : List Char) :
    Except PyErr (Bool × List Char × Bool × ℚ × ℚ) :=
  if filename = [] then .ok (false, [], true, 0, 0)
  else
    let parts := (splitDot filename).map pyStrip
    if 4 ≤ parts.length then
      let data_type := negGet parts 1
      let sample_rate := negGet parts 2
      let cplx := negGet parts 3
      let centreRes : Except PyErr ℚ :=
        if containsSeq ['.', 'c', 'f'] filename then
          let indices := cfIdxs parts 0
          if indices.length = 1 then
            let index := indices.headD 0
            let cf := parts.getD index []
            match parts.get? (index + 1) with
            | none => .error .indexError
            | some nxt =>
              if nxt = ['c', 'p', 'l', 'x'] ∨ nxt = ['r', 'e', 'a', 'l'] then
                match pyFloat (cf.drop 2) with
                | some v => .ok (v * 1000000)
                | none => .ok 0
              else
                let cf_decimal_fraction := negGet parts 4
                match pyFloat ((cf.drop 2) ++ '.' :: cf_decimal_fraction) with
                | some v => .ok (v * 1000000)
                | none => .ok 0
          else .ok 0
        else .ok 0
      match centreRes with
      | .error e => .error e
      | .ok centre_frequency =>
        if cplx = ['c', 'p', 'l', 'x'] ∨ cplx = ['r', 'e', 'a', 'l'] then
          if cplx ≠ ['c', 'p', 'l', 'x'] then
            .ok (false, data_type, false, 0, centre_frequency)
          else if data_type ∈ supported_data_types then
            match pyFloat sample_rate with
            | some sr => .ok (true, data_type, true, sr, centre_frequency)
            | none => .ok (false, data_type, true, 0, centre_frequency)
          else .ok (false, data_type, true, 0, centre_frequency)
        else .ok (false, data_type, true, 0, centre_frequency)
    else .ok (false, [], true, 0, 0)

/-! ## The `Input` class: dual-mode file source state machine -/

/-- What lives at the path handed to the constructor: nothing, a WAV
container (header fields plus its frames), or a raw binary file. -/
inductive FsFile where
  | missing
  | wav (nchannels sampwidth framerate : ℕ) (frames : List (List ℕ))
  | raw (content : List ℕ)

/-- An open WAV container handle: header fields, frames, frame cursor, and
whether `close()` has been called on it. -/
structure WavHandle where
  nchannels : ℕ
  sampwidth : ℕ
  framerate : ℕ
  frames : List (List ℕ)
  pos : ℕ
  closed : Bool
deriving DecidableEq

/-- An open raw binary handle: its bytes, byte cursor, and whether
`close()` has been called on it. -/
structure RawHandle where
  content : List ℕ
  pos : ℕ
  closed : Bool
deriving DecidableEq

/-- The fields of an `Input` object (including those set by the
`DataSource` base-class `__init__`, modelled from the spec). -/
structure InputState where
  source : List Char
  number_complex_samples : ℕ
  data_type : List Char
  sample_rate : ℚ
  centre_frequency : ℚ
  bytes_per_snap : ℕ
  wav_file : Option WavHandle
  file : Option RawHandle
  connected : Bool
  sleep_time : ℚ
deriving DecidableEq

/-- Modelled from the spec: bytes per sample for each encoding tag of the
externally supplied catalogue (8-bit = 1 byte, 16-bit = 2 bytes). -/
def bytes_per_sample (dt : List Char) : ℕ :=
  if dt = ['8', 't'] then 1
  else if dt = ['1', '6', 't', 'b', 'e'] then 2
  else if dt = ['1', '6', 't', 'l', 'e'] then 2
  else 0

/-- Modelled from the spec: `bytes_per_snapshot = number_of_complex_samples ×
2 × bytes_per_sample(encoding)` (factor 2 for I/Q), as computed by the
`DataSource` base class. -/
def bytes_per_snap_of (number_complex_samples : ℕ) (dt : List Char) : ℕ :=
  number_complex_samples * 2 * bytes_per_sample dt

/-- Modelled from the spec: `unpack_data` is the external decode contract
(byte→complex-sample conversion, out of scope); modelled as carrying the raw
byte payload through, so theorems can speak about the bytes consumed. -/
def unpack_data (raw_bytes : List ℕ) : List ℕ := raw_bytes

/-- `wave.open(path, "rb")`: a missing path raises `OSError` (from the
underlying `open`), a non-container file raises `wave.Error`, a container
opens with its header fields and the cursor at the start.  (`FsFile.raw`
models an existing non-container file that is at least as long as the
8-byte RIFF probe, so the probe fails with `wave.Error`, the only case the
constructor's fallback handles; all concrete raw files below are ≥ 8
bytes.) -/
def wave_open : FsFile → Except PyErr WavHandle
  | .missing => .error (.osError (("No such file or directory").toList))
  | .raw _ => .error .waveError
  | .wav nch sw fr frames => .ok ⟨nch, sw, fr, frames, 0, false⟩

/-- `open(path, "rb")`: a missing path raises `OSError`; an existing file
opens with the cursor at byte 0.  (The container case is unreachable from
the constructor, which only falls back here after `wave.Error`.) -/
def raw_open : FsFile → Except PyErr RawHandle
  | .missing => .error (.osError (("No such file or directory").toList))
  | .raw content => .ok ⟨content, 0, false⟩
  | .wav _ _ _ frames => .ok ⟨frames.flatten, 0, false⟩

/-- `Input.__init__`: try the container open first; on `wave.Error` fall back
to a raw open plus filename parsing; any other exception from the container
open (e.g. `OSError` for a missing file) propagates uncaught, because the
`except` clause names only `wave.Error`.  In the raw branch an `OSError` is
wrapped into a `ValueError`, a parsed `real` marker raises `ValueError`, and
a failed parse keeps the caller-supplied parameters. -/
def Input.init (fsfile : FsFile) (file_name : List Char)
    (number_complex_samples : ℕ) (data_type : List Char)
    (sample_rate : ℚ) (centre_frequency : ℚ) : Except PyErr InputState :=
  match wave_open fsfile with
  | .ok w =>
    if w.nchannels ≠ 2 then
      .error (.valueError (("file is wav but not 2 channels").toList))
    else if 2 < w.sampwidth then
      .error (.valueError (("file is wav but more than 2 bytes per sample").toList))
    else
      .ok ⟨file_name, number_complex_samples, data_type, (w.framerate : ℚ),
           centre_frequency, bytes_per_snap_of number_complex_samples data_type,
           some w, none, true, 0⟩
  | .error e =>
    match e with
    | .waveError =>
      match raw_open fsfile with
      | .ok f =>
        match parse_filename file_name with
        | .error pe => .error pe
        | .ok (ok, dt, complex_flag, sample_rate_hz, centre_frequency_fn) =>
          if ok then
            if complex_flag then
              .ok ⟨file_name, number_complex_samples, dt, sample_rate_hz,
                   if centre_frequency_fn ≠ 0 then centre_frequency_fn
                   else centre_frequency,
                   bytes_per_snap_of number_complex_samples dt,
                   none, some f, true, 0⟩
            else
              .error (.valueError
                (("Error: Unsupported input of 'real' from ").toList ++ file_name))
          else
            .ok ⟨file_name, number_complex_samples, data_type, sample_rate,
                 centre_frequency,
                 bytes_per_snap_of number_complex_samples data_type,
                 none, some f, true, 0⟩
      | .error oe =>
        match oe with
        | .osError m => .error (.valueError (("Failed to open input file, ").toList ++ m))
        | e2 => .error e2
    | _ => .error e

/-- `Input.set_sleep_time`. -/
def Input.set_sleep_time (s : InputState) (sleep_time : ℚ) : InputState :=
  { s with sleep_time := sleep_time }

/-- `Input.read_cplx_samples`: pull one snapshot's worth of bytes from
whichever handle is open; a short read clears the connected flag and raises
`ValueError('End of file')`.  Reading a closed raw handle raises `ValueError`
(Python file objects) and a closed container handle an `AttributeError`
(`wave` module internals); neither lies on the claims' normal paths.
The returned `ℕ` models the `rx_time` timestamp (wall-clock, fixed at 0). -/
def Input.read_cplx_samples (s : InputState) :
    Except PyErr (Option (List ℕ) × ℕ) × InputState :=
  match s.wav_file with
  | some w =>
    if w.closed then (.error .attributeError, s)
    else
      let raw_bytes := ((w.frames.drop w.pos).take s.number_complex_samples).flatten
      let taken := min s.number_complex_samples (w.frames.length - w.pos)
      let s1 := { s with wav_file := some { w with pos := w.pos + taken } }
      if raw_bytes.length ≠ s.bytes_per_snap then
        (.error (.valueError (("End of file").toList)), { s1 with connected := false })
      else
        (.ok (some (unpack_data raw_bytes), 0), s1)
  | none =>
    match s.file with
    | some f =>
      if f.closed then (.error (.valueError (("read of closed file").toList)), s)
      else
        let raw_bytes := (f.content.drop f.pos).take s.bytes_per_snap
        let s1 := { s with file := some { f with pos := f.pos + raw_bytes.length } }
        if raw_bytes.length ≠ s.bytes_per_snap then
          (.error (.valueError (("End of file").toList)), { s1 with connected := false })
        else
          (.ok (some (unpack_data raw_bytes), 0), s1)
    | none => (.ok (none, 0), s)

/-- `Input.close`: close whichever handle is open (a Python `close()` is a
no-op when already closed, so this never raises) and clear the connected
flag.  The handle fields themselves are never reset to `None`. -/
def Input.close (s : InputState) : InputState :=
  match s.wav_file with
  | some w => { s with wav_file := some { w with closed := true }, connected := false }
  | none =>
    match s.file with
    | some f => { s with file := some { f with closed := true }, connected := false }
    | none => { s with connected := false }

/-- `Input.reconnect`: clear the connected flag, rewind whichever handle is
open, set the flag again and return it.  `Wave_read.rewind` only resets
position fields, so it succeeds even on a closed container; `seek` on a
closed raw file raises `ValueError`. -/
def Input.reconnect (s : InputState) : Except PyErr Bool × InputState :=
  let s0 := { s with connected := false }
  match s.wav_file with
  | some w =>
    (.ok true, { s0 with wav_file := some { w with pos := 0 }, connected := true })
  | none =>
    match s.file with
    | some f =>
      if f.closed then (.error (.valueError (("seek of closed file").toList)), s0)
      else (.ok true, { s0 with file := some { f with pos := 0 }, connected := true })
    | none => (.ok s0.connected, s0)

/-- Iterate `read_cplx_samples`, propagating the first failure. -/
def readN : ℕ → InputState → Except PyErr InputState
  | 0, s => .ok s
  | k + 1, s =>
    match Input.read_cplx_samples s with
    | (.ok _, s1) => readN k s1
    | (.error e, _) => .error e

/-- The source constructed from a 9-byte raw file named `f` with one
complex sample (2 bytes) per snapshot: `Input.init` keeps the caller's
parameters because the filename does not parse. -/
def exampleRawState : InputState :=
  ⟨("f").toList, 1, ("8t").toList, 0, 0, 2, none,
   some ⟨[0, 1, 2, 3, 4, 5, 6, 7, 8], 0, false⟩, true, 0⟩

/-- `exampleRawState` after four successful 2-byte reads (cursor at byte 8,
one byte short of the next snapshot). -/
def exampleRawRead : InputState :=
  ⟨("f").toList, 1, ("8t").toList, 0, 0, 2, none,
   some ⟨[0, 1, 2, 3, 4, 5, 6, 7, 8], 8, false⟩, true, 0⟩

/-- Reset whatever read cursor a state has to the start of the stream and
set the connected flag: exactly the state components that `read_cplx_samples`
mutates and that `reconnect` restores. -/
def rewindState (s : InputState) : InputState :=
  { s with connected := true,
           wav_file := s.wav_file.map (fun w => { w with pos := 0 }),
           file := s.file.map (fun f => { f with pos := 0 }) }

/-- A state with exactly one open, not-yet-closed handle — the shape every
successful construction produces and every read preserves. -/
def openHandles (s : InputState) : Prop :=
  ((∃ w : WavHandle, s.wav_file = some w ∧ w.closed = false) ∧ s.file = none) ∨
  (s.wav_file = none ∧ ∃ f : RawHandle, s.file = some f ∧ f.closed = false)

/-! ## Helper lemmas about the string machinery -/

lemma splitDot_no_dot {l : List Char} (h : '.' ∉ l) : splitDot l = [l] := by
  induction l with
  | nil => rfl
  | cons c t ih =>
    have hc : c ≠ '.' := fun hc => h (hc ▸ List.mem_cons_self c t)
    have ht : '.' ∉ t := fun hm => h (List.mem_cons_of_mem c hm)
    simp only [splitDot, if_neg hc, ih ht]

lemma splitDot_append_dot {rest : List Char} :
    ∀ {p : List Char}, '.' ∉ p → splitDot (p ++ '.' :: rest) = p :: splitDot rest
  | [], _ => by simp [splitDot]
  | c :: t, h => by
    have hc : c ≠ '.' := fun hc => h (hc ▸ List.mem_cons_self c t)
    have ht : '.' ∉ t := fun hm => h (List.mem_cons_of_mem c hm)
    show splitDot (c :: (t ++ '.' :: rest)) = (c :: t) :: splitDot rest
    rw [splitDot, if_neg hc, splitDot_append_dot ht]

lemma splitDot_joinDot :
    ∀ parts : List (List Char), parts ≠ [] → (∀ p ∈ parts, '.' ∉ p) →
      splitDot (joinDot parts) = parts
  | [], h, _ => absurd rfl h
  | [p], _, hall => by
    simp only [joinDot]
    exact splitDot_no_dot (hall p (List.mem_singleton_self p))
  | p :: q :: ps, _, hall => by
    have hp : '.' ∉ p := hall p (List.mem_cons_self _ _)
    have hrest : ∀ x ∈ q :: ps, '.' ∉ x := fun x hx =>
      hall x (List.mem_cons_of_mem p hx)
    simp only [joinDot, splitDot_append_dot hp,
      splitDot_joinDot (q :: ps) (List.cons_ne_nil q ps) hrest]

lemma joinDot_cons_of_ne {p : List Char} {M : List (List Char)} (h : M ≠ []) :
    joinDot (p :: M) = p ++ '.' :: joinDot M := by
  cases M with
  | nil => exact absurd rfl h
  | cons x xs => rfl

lemma joinDot_append {l : List (List Char)} (h2 : l ≠ []) :
    ∀ {pre : List (List Char)}, pre ≠ [] →
      joinDot (pre ++ l) = joinDot pre ++ '.' :: joinDot l
  | [], h1 => absurd rfl h1
  | [p], _ => by
    rw [List.singleton_append, joinDot_cons_of_ne h2]
    rfl
  | p :: q :: qs, _ => by
    rw [List.cons_append, joinDot_cons_of_ne (by simp),
      joinDot_append h2 (List.cons_ne_nil q qs),
      joinDot_cons_of_ne (List.cons_ne_nil _ _), List.append_assoc]
    rfl

lemma dropWhile_eq_self_of_none {p : Char → Bool} {l : List Char}
    (h : ∀ c ∈ l, p c = false) : l.dropWhile p = l := by
  cases l with
  | nil => rfl
  | cons c t => simp [List.dropWhile, h c (List.mem_cons_self c t)]

lemma pyStrip_eq_self {l : List Char} (h : ∀ c ∈ l, c.isWhitespace = false) :
    pyStrip l = l := by
  unfold pyStrip
  rw [dropWhile_eq_self_of_none h,
    dropWhile_eq_self_of_none (fun c hc => h c (List.mem_reverse.mp hc)),
    List.reverse_reverse]

lemma leadsWith_append_self : ∀ pat r : List Char, leadsWith pat (pat ++ r) = true
  | [], _ => rfl
  | a :: as, r => by simp [leadsWith, leadsWith_append_self as r]

lemma containsSeq_append_right (pat : List Char) :
    ∀ x y : List Char, containsSeq pat y = true → containsSeq pat (x ++ y) = true
  | [], _, h => h
  | c :: t, y, h => by
    simp only [List.cons_append, containsSeq, Bool.or_eq_true]
    exact Or.inr (containsSeq_append_right pat t y h)

lemma containsSeq_self_append (pat r : List Char) :
    containsSeq pat (pat ++ r) = true := by
  cases hp : pat ++ r with
  | nil => simp only [containsSeq]; rw [← hp]; exact leadsWith_append_self pat r
  | cons c t =>
    simp only [containsSeq, Bool.or_eq_true]
    exact Or.inl (hp ▸ leadsWith_append_self pat r)

lemma mem_of_leadsWith {c : Char} {p l : List Char}
    (h : leadsWith (c :: p) l = true) : c ∈ l := by
  cases l with
  | nil => simp [leadsWith] at h
  | cons b t =>
    simp only [leadsWith, Bool.and_eq_true, decide_eq_true_eq] at h
    exact h.1 ▸ List.mem_cons_self b t

lemma mem_of_containsSeq {c : Char} {p : List Char} :
    ∀ {l : List Char}, containsSeq (c :: p) l = true → c ∈ l
  | [], h => by simp [containsSeq, leadsWith] at h
  | b :: t, h => by
    simp only [containsSeq, Bool.or_eq_true] at h
    rcases h with h | h
    · exact mem_of_leadsWith h
    · exact List.mem_cons_of_mem b (mem_of_containsSeq h)

lemma containsSeq_eq_false_of_digits {l : List Char}
    (h : l.all Char.isDigit = true) :
    containsSeq ['c', 'f'] l = false := by
  by_contra hc
  have hc' : containsSeq ['c', 'f'] l = true := by
    simpa using Bool.of_not_eq_false hc
  have hm : 'c' ∈ l := mem_of_containsSeq hc'
  have := (List.all_eq_true.mp h) 'c' hm
  simp at this

lemma cfIdxs_nil_of_all_false :
    ∀ (l : List (List Char)) (i : ℕ),
      (∀ p ∈ l, containsSeq ['c', 'f'] p = false) → cfIdxs l i = []
  | [], _, _ => rfl
  | p :: ps, i, h => by
    have hp := h p (List.mem_cons_self p ps)
    show (if containsSeq ['c', 'f'] p = true then i :: cfIdxs ps (i + 1)
      else cfIdxs ps (i + 1)) = []
    rw [if_neg (by rw [hp]; exact Bool.false_ne_true)]
    exact cfIdxs_nil_of_all_false ps (i + 1)
      (fun x hx => h x (List.mem_cons_of_mem p hx))

lemma cfIdxs_single :
    ∀ (pre : List (List Char)) (x : List Char) (rest : List (List Char)) (i : ℕ),
      (∀ p ∈ pre, containsSeq ['c', 'f'] p = false) →
      containsSeq ['c', 'f'] x = true →
      (∀ p ∈ rest, containsSeq ['c', 'f'] p = false) →
      cfIdxs (pre ++ x :: rest) i = [i + pre.length]
  | [], x, rest, i, _, hx, hrest => by
    show (if containsSeq ['c', 'f'] x = true then i :: cfIdxs rest (i + 1)
      else cfIdxs rest (i + 1)) = [i + List.length []]
    rw [if_pos hx, cfIdxs_nil_of_all_false rest (i + 1) hrest]
    rfl
  | p :: pre, x, rest, i, hpre, hx, hrest => by
    have hp := hpre p (List.mem_cons_self p pre)
    show (if containsSeq ['c', 'f'] p = true
      then i :: cfIdxs (pre ++ x :: rest) (i + 1)
      else cfIdxs (pre ++ x :: rest) (i + 1)) = [i + (p :: pre).length]
    rw [if_neg (by rw [hp]; exact Bool.false_ne_true),
      cfIdxs_single pre x rest (i + 1)
        (fun q hq => hpre q (List.mem_cons_of_mem p hq)) hx hrest]
    simp only [List.length_cons]
    congr 1
    omega

lemma getD_append_len :
    ∀ (pre l : List (List Char)) (i : ℕ),
      (pre ++ l).getD (pre.length + i) [] = l.getD i []
  | [], _, _ => by simp
  | p :: pre, l, i => by
    simp only [List.cons_append, List.length_cons]
    have : pre.length + 1 + i = (pre.length + i) + 1 := by omega
    rw [this]
    simpa using getD_append_len pre l i

lemma get?_append_len :
    ∀ (pre l : List (List Char)) (i : ℕ), (pre ++ l).get? (pre.length + i) = l.get? i
  | [], _, _ => by simp
  | p :: pre, l, i => by
    simp only [List.cons_append, List.length_cons]
    have : pre.length + 1 + i = (pre.length + i) + 1 := by omega
    rw [this]
    simpa using get?_append_len pre l i

/-! ## Digit characters and `pyFloat` -/

lemma digit_facts {c : Char} (h : c.isDigit = true) :
    c ≠ '+' ∧ c ≠ '-' ∧ c ≠ '.' ∧ c.isWhitespace = false := by
  refine ⟨?_, ?_, ?_, ?_⟩
  · rintro rfl; exact absurd h (by decide)
  · rintro rfl; exact absurd h (by decide)
  · rintro rfl; exact absurd h (by decide)
  · cases hw : c.isWhitespace
    · rfl
    · exfalso
      simp only [Char.isWhitespace, Bool.or_eq_true, decide_eq_true_eq] at hw
      rcases hw with ((h' | h') | h') | h' <;> (subst h'; exact absurd h (by decide))

lemma pySign_no_sign : ∀ {l : List Char}, (∀ c ∈ l, c.isDigit = true) →
    pySign l = (false, l)
  | [], _ => rfl
  | c :: t, h => by
    have hc := digit_facts (h c (List.mem_cons_self c t))
    simp [pySign, hc.1, hc.2.1]

lemma pyFloat_digits {l : List Char} (hne : l ≠ []) (hd : l.all Char.isDigit = true) :
    pyFloat l = some ((digitsVal l : ℚ)) := by
  have hall := List.all_eq_true.mp hd
  have hws : ∀ c ∈ l, c.isWhitespace = false :=
    fun c hc => (digit_facts (hall c hc)).2.2.2
  have hndot : '.' ∉ l := fun hm => (digit_facts (hall _ hm)).2.2.1 rfl
  simp only [pyFloat, pyStrip_eq_self hws, pySign_no_sign hall,
    splitDot_no_dot hndot]
  rw [if_pos ⟨hne, hd⟩]
  simp

lemma pyFloat_digits_dot {n f : List Char} (hn : n ≠ [])
    (hnd : n.all Char.isDigit = true) (_hf : f ≠ [])
    (hfd : f.all Char.isDigit = true) :
    pyFloat (n ++ '.' :: f) =
      some ((digitsVal n : ℚ) + (digitsVal f : ℚ) / 10 ^ f.length) := by
  have halln := List.all_eq_true.mp hnd
  have hallf := List.all_eq_true.mp hfd
  have hws : ∀ c ∈ n ++ '.' :: f, c.isWhitespace = false := by
    intro c hc
    rcases List.mem_append.mp hc with hc | hc
    · exact (digit_facts (halln c hc)).2.2.2
    · rcases List.mem_cons.mp hc with rfl | hc
      · decide
      · exact (digit_facts (hallf c hc)).2.2.2
  have hsgn : pySign (n ++ '.' :: f) = (false, n ++ '.' :: f) := by
    cases n with
    | nil => exact absurd rfl hn
    | cons c t =>
      have hc := digit_facts (halln c (List.mem_cons_self c t))
      simp [pySign, hc.1, hc.2.1]
  have hndot : '.' ∉ n := fun hm => (digit_facts (halln _ hm)).2.2.1 rfl
  have hfdot : '.' ∉ f := fun hm => (digit_facts (hallf _ hm)).2.2.1 rfl
  simp only [pyFloat, pyStrip_eq_self hws, hsgn, splitDot_append_dot hndot,
    splitDot_no_dot hfdot]
  rw [if_pos ⟨by simp [hn], by simp [List.all_append, hnd, hfd]⟩]
  simp

lemma map_pyStrip_id :
    ∀ {l : List (List Char)},
      (∀ p ∈ l, ∀ c ∈ p, c.isWhitespace = false) → l.map pyStrip = l
  | [], _ => rfl
  | p :: ps, h => by
    rw [List.map_cons, pyStrip_eq_self (h p (List.mem_cons_self p ps)),
      map_pyStrip_id (fun q hq => h q (List.mem_cons_of_mem p hq))]

lemma digits_no_dot {l : List Char} (h : l.all Char.isDigit = true) : '.' ∉ l :=
  fun hm => (digit_facts ((List.all_eq_true.mp h) _ hm)).2.2.1 rfl

lemma digits_no_ws {l : List Char} (h : l.all Char.isDigit = true) :
    ∀ c ∈ l, c.isWhitespace = false :=
  fun c hc => (digit_facts ((List.all_eq_true.mp h) c hc)).2.2.2

/-- Claim C7: for every filename matching the full grammar with a short-form
centre frequency — some dot-free fields (none containing `cf`), then a
`cfNNNN` field immediately followed by the `cplx` marker, a numeric rate
field and a supported encoding tag — `parse_filename` returns `ok = true`,
`encoding` = the last field, `is_complex = true`, `sample_rate_hz` = the rate
field as a number, and `centre_frequency_hz = NNNN × 1e6`. -/
theorem claim_C7 (pre : List (List Char)) (n rate enc : List Char)
    (hpre : pre ≠ [])
    (hpre_dot : ∀ p ∈ pre, '.' ∉ p)
    (hpre_cf : ∀ p ∈ pre, containsSeq ['c', 'f'] p = false)
    (hpre_ws : ∀ p ∈ pre, ∀ c ∈ p, c.isWhitespace = false)
    (hn : n ≠ []) (hnd : n.all Char.isDigit = true)
    (hr : rate ≠ []) (hrd : rate.all Char.isDigit = true)
    (henc : enc ∈ supported_data_types) :
    parse_filename
        (joinDot (pre ++ ['c' :: 'f' :: n, ['c', 'p', 'l', 'x'], rate, enc])) =
      .ok (true, enc, true, (digitsVal rate : ℚ), (digitsVal n : ℚ) * 1000000) := by
  have henc3 : enc = ['8', 't'] ∨ enc = ['1', '6', 't', 'b', 'e'] ∨
      enc = ['1', '6', 't', 'l', 'e'] := by
    simpa [supported_data_types] using henc
  have henc_dot : '.' ∉ enc := by
    rcases henc3 with rfl | rfl | rfl <;> decide
  have henc_cf : containsSeq ['c', 'f'] enc = false := by
    rcases henc3 with rfl | rfl | rfl <;> decide
  have henc_ws : ∀ c ∈ enc, c.isWhitespace = false := by
    rcases henc3 with rfl | rfl | rfl <;> decide
  have hdot : ∀ p ∈ pre ++ ['c' :: 'f' :: n, ['c', 'p', 'l', 'x'], rate, enc],
      '.' ∉ p := by
    intro p hp
    rcases List.mem_append.mp hp with hp | hp
    · exact hpre_dot p hp
    · simp only [List.mem_cons, List.not_mem_nil, or_false] at hp
      rcases hp with rfl | rfl | rfl | rfl
      · intro hm
        rcases List.mem_cons.mp hm with h' | h'
        · exact absurd h' (by decide)
        · rcases List.mem_cons.mp h' with h'' | h''
          · exact absurd h'' (by decide)
          · exact digits_no_dot hnd h''
      · decide
      · exact digits_no_dot hrd
      · exact henc_dot
  have hws : ∀ p ∈ pre ++ ['c' :: 'f' :: n, ['c', 'p', 'l', 'x'], rate, enc],
      ∀ c ∈ p, c.isWhitespace = false := by
    intro p hp
    rcases List.mem_append.mp hp with hp | hp
    · exact hpre_ws p hp
    · simp only [List.mem_cons, List.not_mem_nil, or_false] at hp
      rcases hp with rfl | rfl | rfl | rfl
      · intro c hc
        rcases List.mem_cons.mp hc with rfl | hc
        · decide
        · rcases List.mem_cons.mp hc with rfl | hc
          · decide
          · exact digits_no_ws hnd c hc
      · decide
      · exact digits_no_ws hrd
      · exact henc_ws
  have hjoin : joinDot (pre ++ ['c' :: 'f' :: n, ['c', 'p', 'l', 'x'], rate, enc]) =
      joinDot pre ++ '.' ::
        joinDot ['c' :: 'f' :: n, ['c', 'p', 'l', 'x'], rate, enc] :=
    joinDot_append (by simp) hpre
  have hfne : joinDot (pre ++ ['c' :: 'f' :: n, ['c', 'p', 'l', 'x'], rate, enc]) ≠
      [] := by
    rw [hjoin]; simp
  have hsplit :
      splitDot (joinDot (pre ++ ['c' :: 'f' :: n, ['c', 'p', 'l', 'x'], rate, enc])) =
      pre ++ ['c' :: 'f' :: n, ['c', 'p', 'l', 'x'], rate, enc] :=
    splitDot_joinDot _ (by simp) hdot
  have hcf_file :
      containsSeq ['.', 'c', 'f']
        (joinDot (pre ++ ['c' :: 'f' :: n, ['c', 'p', 'l', 'x'], rate, enc])) =
      true := by
    rw [hjoin]
    apply containsSeq_append_right
    show containsSeq ['.', 'c', 'f']
      (['.', 'c', 'f'] ++ (n ++ '.' :: joinDot [['c', 'p', 'l', 'x'], rate, enc])) =
      true
    exact containsSeq_self_append _ _
  have hidx :
      cfIdxs (pre ++ ['c' :: 'f' :: n, ['c', 'p', 'l', 'x'], rate, enc]) 0 =
      [pre.length] := by
    have h1 := cfIdxs_single pre ('c' :: 'f' :: n)
      [['c', 'p', 'l', 'x'], rate, enc] 0 hpre_cf
      (containsSeq_self_append ['c', 'f'] n)
      (by
        intro p hp
        simp only [List.mem_cons, List.not_mem_nil, or_false] at hp
        rcases hp with rfl | rfl | rfl
        · decide
        · exact containsSeq_eq_false_of_digits hrd
        · exact henc_cf)
    simpa using h1
  have hlen :
      (pre ++ ['c' :: 'f' :: n, ['c', 'p', 'l', 'x'], rate, enc]).length =
      pre.length + 4 := by simp
  have hget_cf :
      (pre ++ ['c' :: 'f' :: n, ['c', 'p', 'l', 'x'], rate, enc]).getD pre.length [] =
      'c' :: 'f' :: n := by
    have h0 := getD_append_len pre ['c' :: 'f' :: n, ['c', 'p', 'l', 'x'], rate, enc] 0
    rw [Nat.add_zero] at h0
    exact h0
  have hget1 :
      (pre ++ ['c' :: 'f' :: n, ['c', 'p', 'l', 'x'], rate, enc]).get?
        (pre.length + 1) = some ['c', 'p', 'l', 'x'] := by
    rw [get?_append_len]; rfl
  have hng1 : negGet (pre ++ ['c' :: 'f' :: n, ['c', 'p', 'l', 'x'], rate, enc]) 1 =
      enc := by
    unfold negGet
    rw [hlen, show pre.length + 4 - 1 = pre.length + 3 by omega, getD_append_len]
    rfl
  have hng2 : negGet (pre ++ ['c' :: 'f' :: n, ['c', 'p', 'l', 'x'], rate, enc]) 2 =
      rate := by
    unfold negGet
    rw [hlen, show pre.length + 4 - 2 = pre.length + 2 by omega, getD_append_len]
    rfl
  have hng3 : negGet (pre ++ ['c' :: 'f' :: n, ['c', 'p', 'l', 'x'], rate, enc]) 3 =
      ['c', 'p', 'l', 'x'] := by
    unfold negGet
    rw [hlen, show pre.length + 4 - 3 = pre.length + 1 by omega, getD_append_len]
    rfl
  rw [parse_filename, if_neg hfne]
  simp only [hsplit, map_pyStrip_id hws, hlen, hcf_file, hidx]
  rw [if_pos (show 4 ≤ pre.length + 4 by omega)]
  simp only [List.headD, List.length_cons, List.length_nil, if_pos rfl,
    hget_cf, hget1, hng1, hng2, hng3]
  rw [show List.drop 2 ('c' :: 'f' :: n) = n from rfl, pyFloat_digits hn hnd,
    pyFloat_digits hr hrd]
  simp [henc]

/-- Claim C8: for every filename matching the long-form centre-frequency
grammar — a `cfNNNN` field followed by a separate fractional-part field, then
the `cplx`/`real` marker, a numeric rate and a supported encoding tag —
`parse_filename` returns `centre_frequency_hz` equal to the concatenation
`NNNN.<fractional-field> × 1e6`. -/
theorem claim_C8 (pre : List (List Char)) (n f marker rate enc : List Char)
    (hpre : pre ≠ [])
    (hpre_dot : ∀ p ∈ pre, '.' ∉ p)
    (hpre_cf : ∀ p ∈ pre, containsSeq ['c', 'f'] p = false)
    (hpre_ws : ∀ p ∈ pre, ∀ c ∈ p, c.isWhitespace = false)
    (hn : n ≠ []) (hnd : n.all Char.isDigit = true)
    (hf0 : f ≠ []) (hfd : f.all Char.isDigit = true)
    (hm : marker = ['c', 'p', 'l', 'x'] ∨ marker = ['r', 'e', 'a', 'l'])
    (hr : rate ≠ []) (hrd : rate.all Char.isDigit = true)
    (henc : enc ∈ supported_data_types) :
    (parse_filename
        (joinDot (pre ++ ['c' :: 'f' :: n, f, marker, rate, enc]))).map
        (fun r => r.2.2.2.2) =
      .ok (((digitsVal n : ℚ) + (digitsVal f : ℚ) / 10 ^ f.length) * 1000000) := by
  have henc3 : enc = ['8', 't'] ∨ enc = ['1', '6', 't', 'b', 'e'] ∨
      enc = ['1', '6', 't', 'l', 'e'] := by
    simpa [supported_data_types] using henc
  have henc_dot : '.' ∉ enc := by
    rcases henc3 with rfl | rfl | rfl <;> decide
  have henc_cf : containsSeq ['c', 'f'] enc = false := by
    rcases henc3 with rfl | rfl | rfl <;> decide
  have henc_ws : ∀ c ∈ enc, c.isWhitespace = false := by
    rcases henc3 with rfl | rfl | rfl <;> decide
  have hm_dot : '.' ∉ marker := by
    rcases hm with rfl | rfl <;> decide
  have hm_cf : containsSeq ['c', 'f'] marker = false := by
    rcases hm with rfl | rfl <;> decide
  have hm_ws : ∀ c ∈ marker, c.isWhitespace = false := by
    rcases hm with rfl | rfl <;> decide
  have hdot : ∀ p ∈ pre ++ ['c' :: 'f' :: n, f, marker, rate, enc], '.' ∉ p := by
    intro p hp
    rcases List.mem_append.mp hp with hp | hp
    · exact hpre_dot p hp
    · simp only [List.mem_cons, List.not_mem_nil, or_false] at hp
      rcases hp with rfl | rfl | rfl | rfl | rfl
      · intro hmm
        rcases List.mem_cons.mp hmm with h' | h'
        · exact absurd h' (by decide)
        · rcases List.mem_cons.mp h' with h'' | h''
          · exact absurd h'' (by decide)
          · exact digits_no_dot hnd h''
      · exact digits_no_dot hfd
      · exact hm_dot
      · exact digits_no_dot hrd
      · exact henc_dot
  have hws : ∀ p ∈ pre ++ ['c' :: 'f' :: n, f, marker, rate, enc],
      ∀ c ∈ p, c.isWhitespace = false := by
    intro p hp
    rcases List.mem_append.mp hp with hp | hp
    · exact hpre_ws p hp
    · simp only [List.mem_cons, List.not_mem_nil, or_false] at hp
      rcases hp with rfl | rfl | rfl | rfl | rfl
      · intro c hc
        rcases List.mem_cons.mp hc with rfl | hc
        · decide
        · rcases List.mem_cons.mp hc with rfl | hc
          · decide
          · exact digits_no_ws hnd c hc
      · exact digits_no_ws hfd
      · exact hm_ws
      · exact digits_no_ws hrd
      · exact henc_ws
  have hjoin : joinDot (pre ++ ['c' :: 'f' :: n, f, marker, rate, enc]) =
      joinDot pre ++ '.' :: joinDot ['c' :: 'f' :: n, f, marker, rate, enc] :=
    joinDot_append (by simp) hpre
  have hfne : joinDot (pre ++ ['c' :: 'f' :: n, f, marker, rate, enc]) ≠ [] := by
    rw [hjoin]; simp
  have hsplit :
      splitDot (joinDot (pre ++ ['c' :: 'f' :: n, f, marker, rate, enc])) =
      pre ++ ['c' :: 'f' :: n, f, marker, rate, enc] :=
    splitDot_joinDot _ (by simp) hdot
  have hcf_file :
      containsSeq ['.', 'c', 'f']
        (joinDot (pre ++ ['c' :: 'f' :: n, f, marker, rate, enc])) = true := by
    rw [hjoin]
    apply containsSeq_append_right
    show containsSeq ['.', 'c', 'f']
      (['.', 'c', 'f'] ++ (n ++ '.' :: joinDot [f, marker, rate, enc])) = true
    exact containsSeq_self_append _ _
  have hidx : cfIdxs (pre ++ ['c' :: 'f' :: n, f, marker, rate, enc]) 0 =
      [pre.length] := by
    have h1 := cfIdxs_single pre ('c' :: 'f' :: n) [f, marker, rate, enc] 0 hpre_cf
      (containsSeq_self_append ['c', 'f'] n)
      (by
        intro p hp
        simp only [List.mem_cons, List.not_mem_nil, or_false] at hp
        rcases hp with rfl | rfl | rfl | rfl
        · exact containsSeq_eq_false_of_digits hfd
        · exact hm_cf
        · exact containsSeq_eq_false_of_digits hrd
        · exact henc_cf)
    simpa using h1
  have hlen : (pre ++ ['c' :: 'f' :: n, f, marker, rate, enc]).length =
      pre.length + 5 := by simp
  have hget_cf :
      (pre ++ ['c' :: 'f' :: n, f, marker, rate, enc]).getD pre.length [] =
      'c' :: 'f' :: n := by
    have h0 := getD_append_len pre ['c' :: 'f' :: n, f, marker, rate, enc] 0
    rw [Nat.add_zero] at h0
    exact h0
  have hget1 :
      (pre ++ ['c' :: 'f' :: n, f, marker, rate, enc]).get? (pre.length + 1) =
      some f := by
    rw [get?_append_len]; rfl
  have hfm : ¬(f = ['c', 'p', 'l', 'x'] ∨ f = ['r', 'e', 'a', 'l']) := by
    rintro (rfl | rfl) <;> exact absurd hfd (by decide)
  have hng1 : negGet (pre ++ ['c' :: 'f' :: n, f, marker, rate, enc]) 1 = enc := by
    unfold negGet
    rw [hlen, show pre.length + 5 - 1 = pre.length + 4 by omega, getD_append_len]
    rfl
  have hng2 : negGet (pre ++ ['c' :: 'f' :: n, f, marker, rate, enc]) 2 = rate := by
    unfold negGet
    rw [hlen, show pre.length + 5 - 2 = pre.length + 3 by omega, getD_append_len]
    rfl
  have hng3 : negGet (pre ++ ['c' :: 'f' :: n, f, marker, rate, enc]) 3 =
      marker := by
    unfold negGet
    rw [hlen, show pre.length + 5 - 3 = pre.length + 2 by omega, getD_append_len]
    rfl
  have hng4 : negGet (pre ++ ['c' :: 'f' :: n, f, marker, rate, enc]) 4 = f := by
    unfold negGet
    rw [hlen, show pre.length + 5 - 4 = pre.length + 1 by omega, getD_append_len]
    rfl
  rw [parse_filename, if_neg hfne]
  simp only [hsplit, map_pyStrip_id hws, hlen, hcf_file, hidx]
  rw [if_pos (show 4 ≤ pre.length + 5 by omega)]
  simp only [List.headD, List.length_cons, List.length_nil, if_pos rfl,
    hget_cf, hget1, hng1, hng2, hng3, hng4]
  rw [if_neg hfm, show List.drop 2 ('c' :: 'f' :: n) = n from rfl,
    pyFloat_digits_dot hn hnd hf0 hfd, pyFloat_digits hr hrd]
  rcases hm with rfl | rfl
  · simp [henc, Except.map]
  · simp [Except.map]

/-! ## Helper lemmas about the `Input` state machine -/

lemma init_raw_shape {content : List ℕ} {fname : List Char} {ncs : ℕ}
    {dt : List Char} {sr cf : ℚ} {s : InputState}
    (h : Input.init (FsFile.raw content) fname ncs dt sr cf = .ok s) :
    s.wav_file = none ∧ s.file = some ⟨content, 0, false⟩ ∧ s.connected = true := by
  simp only [Input.init, wave_open, raw_open] at h
  cases hp : parse_filename fname with
  | error e => rw [hp] at h; cases h
  | ok t =>
    obtain ⟨ok1, dt1, cfl, sr1, cf1⟩ := t
    rw [hp] at h
    by_cases h1 : ok1 = true
    · by_cases h2 : cfl = true
      · simp only [h1, h2, if_pos rfl] at h
        cases h
        exact ⟨rfl, rfl, rfl⟩
      · simp only [h1, if_pos rfl, if_neg h2] at h
        cases h
    · simp only [if_neg h1] at h
      cases h
      exact ⟨rfl, rfl, rfl⟩

lemma read_raw_ok (src : List Char) (ncs : ℕ) (dt : List Char) (sr cf : ℚ)
    (bps : ℕ) (conn : Bool) (slp : ℚ) (content : List ℕ) (p : ℕ)
    (hle : p + bps ≤ content.length) :
    Input.read_cplx_samples
        ⟨src, ncs, dt, sr, cf, bps, none, some ⟨content, p, false⟩, conn, slp⟩ =
      (.ok (some (unpack_data ((content.drop p).take bps)), 0),
       ⟨src, ncs, dt, sr, cf, bps, none, some ⟨content, p + bps, false⟩,
        conn, slp⟩) := by
  have hlen1 : ((content.drop p).take bps).length = bps := by
    simp only [List.length_take, List.length_drop]
    omega
  simp [Input.read_cplx_samples, hlen1]

lemma read_raw_eof (src : List Char) (ncs : ℕ) (dt : List Char) (sr cf : ℚ)
    (bps : ℕ) (conn : Bool) (slp : ℚ) (content : List ℕ) (p : ℕ)
    (hp : p ≤ content.length) (hlt : content.length < p + bps) :
    Input.read_cplx_samples
        ⟨src, ncs, dt, sr, cf, bps, none, some ⟨content, p, false⟩, conn, slp⟩ =
      (.error (.valueError (("End of file").toList)),
       ⟨src, ncs, dt, sr, cf, bps, none, some ⟨content, content.length, false⟩,
        false, slp⟩) := by
  have hlen1 : ((content.drop p).take bps).length = content.length - p := by
    simp only [List.length_take, List.length_drop]
    omega
  have hne : content.length - p ≠ bps := by omega
  have hpos : p + (content.length - p) = content.length := by omega
  simp only [Input.read_cplx_samples]
  simp only [RawHandle.closed, Bool.false_eq_true, if_false, hlen1]
  rw [if_pos hne, hpos]

lemma readN_raw (content : List ℕ) :
    ∀ (k : ℕ) (src : List Char) (ncs : ℕ) (dt : List Char) (sr cf : ℚ)
      (bps : ℕ) (conn : Bool) (slp : ℚ) (p : ℕ),
      p + k * bps ≤ content.length →
      readN k
          ⟨src, ncs, dt, sr, cf, bps, none, some ⟨content, p, false⟩, conn, slp⟩ =
        .ok ⟨src, ncs, dt, sr, cf, bps, none, some ⟨content, p + k * bps, false⟩,
             conn, slp⟩
  | 0, src, ncs, dt, sr, cf, bps, conn, slp, p, _ => by
    simp [readN]
  | k + 1, src, ncs, dt, sr, cf, bps, conn, slp, p, hle => by
    rw [Nat.succ_mul] at hle ⊢
    have hstep : p + bps ≤ content.length := by omega
    rw [readN, read_raw_ok src ncs dt sr cf bps conn slp content p hstep]
    show readN k
        ⟨src, ncs, dt, sr, cf, bps, none, some ⟨content, p + bps, false⟩,
         conn, slp⟩ = _
    rw [readN_raw content k src ncs dt sr cf bps conn slp (p + bps) (by omega)]
    rw [show p + bps + k * bps = p + (k * bps + bps) by omega]

lemma reconnect_raw_open (src : List Char) (ncs : ℕ) (dt : List Char)
    (sr cf : ℚ) (bps : ℕ) (conn : Bool) (slp : ℚ) (content : List ℕ) (p : ℕ) :
    Input.reconnect
        ⟨src, ncs, dt, sr, cf, bps, none, some ⟨content, p, false⟩, conn, slp⟩ =
      (.ok true,
       ⟨src, ncs, dt, sr, cf, bps, none, some ⟨content, 0, false⟩, true, slp⟩) := by
  simp [Input.reconnect]

lemma readN_succ_ok {k : ℕ} {t t1 : InputState}
    (h : readN (k + 1) t = .ok t1) :
    ∃ y t', Input.read_cplx_samples t = (.ok y, t') ∧ readN k t' = .ok t1 := by
  rw [readN] at h
  cases hr : Input.read_cplx_samples t with
  | mk e t' =>
    rw [hr] at h
    cases e with
    | ok y => exact ⟨y, t', rfl, h⟩
    | error e0 => exact Except.noConfusion h

lemma rewind_read (t : InputState) :
    rewindState (Input.read_cplx_samples t).2 = rewindState t := by
  obtain ⟨src, ncs, dt, sr, cf, bps, wv, fl, conn, slp⟩ := t
  cases wv with
  | some w =>
    dsimp only [Input.read_cplx_samples]
    split
    · rfl
    · split <;> rfl
  | none =>
    cases fl with
    | some f =>
      dsimp only [Input.read_cplx_samples]
      split
      · rfl
      · split <;> rfl
    | none => rfl

lemma rewind_readN :
    ∀ (k : ℕ) (t t1 : InputState), readN k t = .ok t1 →
      rewindState t1 = rewindState t
  | 0, t, t1, h => by
    simp only [readN] at h
    injection h with h2
    rw [h2]
  | k + 1, t, t1, h => by
    obtain ⟨y, t', hr, h2⟩ := readN_succ_ok h
    have h3 := rewind_readN k t' t1 h2
    have h4 := rewind_read t
    rw [hr] at h4
    rw [h3, ← h4]

lemma openHandles_read (t : InputState) (h : openHandles t) :
    openHandles (Input.read_cplx_samples t).2 := by
  obtain ⟨src, ncs, dt, sr, cf, bps, wv, fl, conn, slp⟩ := t
  rcases h with ⟨⟨w, hw, hcl⟩, hf⟩ | ⟨hw, ⟨f, hf, hcl⟩⟩
  · dsimp only at hw hf
    subst hw
    subst hf
    dsimp only [Input.read_cplx_samples]
    rw [hcl, if_neg Bool.false_ne_true]
    split <;> exact Or.inl ⟨⟨_, rfl, rfl⟩, rfl⟩
  · dsimp only at hw hf
    subst hw
    subst hf
    dsimp only [Input.read_cplx_samples]
    rw [hcl, if_neg Bool.false_ne_true]
    split <;> exact Or.inr ⟨rfl, _, rfl, rfl⟩

lemma openHandles_readN :
    ∀ (k : ℕ) (t t1 : InputState), readN k t = .ok t1 → openHandles t →
      openHandles t1
  | 0, t, t1, h, ho => by
    simp only [readN] at h
    injection h with h2
    rw [← h2]
    exact ho
  | k + 1, t, t1, h, ho => by
    obtain ⟨y, t', hr, h2⟩ := readN_succ_ok h
    have ht' : (Input.read_cplx_samples t).2 = t' := by rw [hr]
    exact openHandles_readN k t' t1 h2 (ht' ▸ openHandles_read t ho)

lemma read_ok_shape (t : InputState) (y : Option (List ℕ) × ℕ)
    (ho : openHandles t) (hr : (Input.read_cplx_samples t).1 = .ok y) :
    ∃ b : List ℕ, y = (some b, 0) := by
  obtain ⟨src, ncs, dt, sr, cf, bps, wv, fl, conn, slp⟩ := t
  rcases ho with ⟨⟨w, hw, hcl⟩, hf⟩ | ⟨hw, ⟨f, hf, hcl⟩⟩
  · dsimp only at hw hf
    subst hw
    subst hf
    dsimp only [Input.read_cplx_samples] at hr
    rw [hcl, if_neg Bool.false_ne_true] at hr
    split at hr
    · exact Except.noConfusion hr
    · injection hr with h3
      exact ⟨_, h3.symm⟩
  · dsimp only at hw hf
    subst hw
    subst hf
    dsimp only [Input.read_cplx_samples] at hr
    rw [hcl, if_neg Bool.false_ne_true] at hr
    split at hr
    · exact Except.noConfusion hr
    · injection hr with h3
      exact ⟨_, h3.symm⟩

lemma reconnect_open (t : InputState) (h : openHandles t) :
    Input.reconnect t = (.ok true, rewindState t) := by
  obtain ⟨src, ncs, dt, sr, cf, bps, wv, fl, conn, slp⟩ := t
  rcases h with ⟨⟨w, hw, hcl⟩, hf⟩ | ⟨hw, ⟨f, hf, hcl⟩⟩
  · dsimp only at hw hf
    subst hw
    subst hf
    rfl
  · dsimp only at hw hf
    subst hw
    subst hf
    dsimp only [Input.reconnect, rewindState, Option.map]
    rw [hcl, if_neg Bool.false_ne_true]

lemma init_state_fresh (fsfile : FsFile) (fname : List Char) (ncs : ℕ)
    (dt : List Char) (sr cf : ℚ) (s : InputState)
    (h : Input.init fsfile fname ncs dt sr cf = .ok s) :
    openHandles s ∧ rewindState s = s := by
  cases fsfile with
  | missing => simp [Input.init, wave_open] at h
  | raw content =>
    obtain ⟨hw, hf, hc⟩ := init_raw_shape h
    obtain ⟨src, ncs1, dt1, sr1, cf1, bps, wv, fl, conn, slp⟩ := s
    dsimp only at hw hf hc
    subst hw
    subst hf
    subst hc
    exact ⟨Or.inr ⟨rfl, ⟨content, 0, false⟩, rfl, rfl⟩, rfl⟩
  | wav nch sw fr frames =>
    simp only [Input.init, wave_open] at h
    by_cases h1 : nch ≠ 2
    · rw [if_pos h1] at h; cases h
    · rw [if_neg h1] at h
      by_cases h2 : 2 < sw
      · rw [if_pos h2] at h; cases h
      · rw [if_neg h2] at h
        cases h
        exact ⟨Or.inl ⟨⟨⟨nch, sw, fr, frames, 0, false⟩, rfl, rfl⟩, rfl⟩, rfl⟩

lemma read_preserves_handles (t : InputState) :
    (Input.read_cplx_samples t).2.wav_file.isSome = t.wav_file.isSome ∧
    (Input.read_cplx_samples t).2.file.isSome = t.file.isSome := by
  obtain ⟨src, ncs, dt, sr, cf, bps, wv, fl, conn, slp⟩ := t
  cases wv with
  | some w =>
    dsimp only [Input.read_cplx_samples]
    split
    · exact ⟨rfl, rfl⟩
    · split <;> exact ⟨rfl, rfl⟩
  | none =>
    cases fl with
    | some f =>
      dsimp only [Input.read_cplx_samples]
      split
      · exact ⟨rfl, rfl⟩
      · split <;> exact ⟨rfl, rfl⟩
    | none => exact ⟨rfl, rfl⟩

lemma close_preserves_handles (t : InputState) :
    (Input.close t).wav_file.isSome = t.wav_file.isSome ∧
    (Input.close t).file.isSome = t.file.isSome := by
  obtain ⟨src, ncs, dt, sr, cf, bps, wv, fl, conn, slp⟩ := t
  cases wv with
  | some w => exact ⟨rfl, rfl⟩
  | none =>
    cases fl with
    | some f => exact ⟨rfl, rfl⟩
    | none => exact ⟨rfl, rfl⟩

lemma reconnect_preserves_handles (t : InputState) :
    (Input.reconnect t).2.wav_file.isSome = t.wav_file.isSome ∧
    (Input.reconnect t).2.file.isSome = t.file.isSome := by
  obtain ⟨src, ncs, dt, sr, cf, bps, wv, fl, conn, slp⟩ := t
  cases wv with
  | some w => exact ⟨rfl, rfl⟩
  | none =>
    cases fl with
    | some f =>
      dsimp only [Input.reconnect]
      split <;> exact ⟨rfl, rfl⟩
    | none => exact ⟨rfl, rfl⟩

/-! ## The claims -/

/-- Claim C1: the spec says a filename whose marker field is `real` (with a
valid rate and a supported encoding) parses with `ok = true` and
`is_complex = false`.  The code disagrees: `ok` is only ever set in the
`cplx` branch of the marker check (the `elif` at the end of
`parse_filename`), so a `real` file yields `ok = false` — which in turn makes
the constructor's explicit rejection of `real` input dead code.  This theorem
evaluates the embedded parser at the failing input. -/
theorem claim_C1 :
    parse_filename (("x.real.1000.16tle").toList) =
      .ok (false, ("16tle").toList, false, 0, 0) := by rfl

/-- Claim C2: the spec says constructing a source from a raw file whose name
parses as `real` fails with a configuration error.  In the code no filename
ever parses with `ok = true` and `is_complex = false` (see C1), so the
constructor's `real` rejection branch is unreachable and construction of a
source from a `real`-named raw file completes normally.  This theorem
evaluates the embedded constructor at the failing input and shows it
succeeds. -/
theorem claim_C2 :
    (Input.init (FsFile.raw [0, 1, 2, 3, 4, 5, 6, 7, 8])
      (("x.real.1000.16tle").toList) 1 (("16tle").toList) 0 0).isOk = true := by
  rfl

/-- Claim C3: the spec says `parse_filename` never raises.  But when the only
field containing `cf` is the last dot-field, `parts[index + 1]` raises an
`IndexError`, which the surrounding `except ValueError` does not catch.  This
theorem evaluates the embedded parser at such an input. -/
theorem claim_C3 :
    parse_filename (("a.b.c.cf123").toList) = .error .indexError := by rfl

/-- Claim C4: the spec says every fatal construction failure — in particular
a path that cannot be opened at all — surfaces as the single uniform error
kind (`ValueError`).  But a missing path makes `wave.open` itself raise
`OSError`, which the `except wave.Error` clause does not catch, so the
constructor propagates the unwrapped `OSError`; the `OSError → ValueError`
wrapping only protects the raw-open fallback.  This theorem evaluates the
embedded constructor at a missing path. -/
theorem claim_C4 :
    Input.init FsFile.missing (("x.cplx.1000.16tle").toList)
      1 (("16tle").toList) 0 0 =
      .error (.osError (("No such file or directory").toList)) := by rfl

/-- Claim C5: for every raw-binary source over a file of size
`k × bytes_per_snapshot + r` with `0 < r < bytes_per_snapshot`, `read`
succeeds exactly `k` times, and the `(k+1)`-th read clears the connected
flag and fails with the end-of-stream error `ValueError('End of file')`,
returning no partial or truncated sample array. -/
theorem claim_C5 (content : List ℕ) (fname : List Char) (ncs : ℕ)
    (dt : List Char) (sr cf : ℚ) (s : InputState) (k r : ℕ)
    (hinit : Input.init (FsFile.raw content) fname ncs dt sr cf = .ok s)
    (hlen : content.length = k * s.bytes_per_snap + r)
    (hr0 : 0 < r) (hrb : r < s.bytes_per_snap) :
    ∃ s1 : InputState,
      readN k s = .ok s1 ∧
      (Input.read_cplx_samples s1).1 =
        .error (.valueError (("End of file").toList)) ∧
      (Input.read_cplx_samples s1).2.connected = false := by
  obtain ⟨hw, hf, hc⟩ := init_raw_shape hinit
  obtain ⟨src, ncs1, dt1, sr1, cf1, bps, wv, fl, conn, slp⟩ := s
  dsimp only at hw hf hlen hrb
  subst hw
  subst hf
  have h1 := readN_raw content k src ncs1 dt1 sr1 cf1 bps conn slp 0 (by omega)
  rw [Nat.zero_add] at h1
  refine ⟨_, h1, ?_, ?_⟩
  · rw [read_raw_eof src ncs1 dt1 sr1 cf1 bps conn slp content (k * bps)
      (by omega) (by omega)]
  · rw [read_raw_eof src ncs1 dt1 sr1 cf1 bps conn slp content (k * bps)
      (by omega) (by omega)]

/-- Claim C5 witness: a 9-byte raw file with 2-byte snapshots reads four
times and then fails with end-of-stream. -/
theorem claim_C5_witness :
    ∃ s1 : InputState,
      readN 4 exampleRawState = .ok s1 ∧
      (Input.read_cplx_samples s1).1 =
        .error (.valueError (("End of file").toList)) ∧
      (Input.read_cplx_samples s1).2.connected = false :=
  claim_C5 [0, 1, 2, 3, 4, 5, 6, 7, 8] (("f").toList) 1 (("8t").toList) 0 0
    exampleRawState 4 1 (by rfl) (by rfl) (by decide) (by decide)

/-- Claim C6: for every constructed source — container (wav) or raw — that
has been read to exhaustion (some reads succeeded, then one failed with
end-of-stream), `reconnect` returns `true` and restores the state to exactly
its freshly-constructed value: the cursor is back at the start of the stream
and the connected flag is re-asserted; consequently a subsequent read
succeeds, returning a sample payload, and consumes exactly the same bytes as
the very first read did (round-trip).  The end-of-stream hypothesis `_hfail`
states the claim's exhaustion scenario; the conclusion in fact holds for any
state reached by reads, which only strengthens the result. -/
theorem claim_C6 (fsfile : FsFile) (fname : List Char) (ncs : ℕ)
    (dt : List Char) (sr cf : ℚ) (s s1 : InputState) (k : ℕ)
    (hinit : Input.init fsfile fname ncs dt sr cf = .ok s)
    (hk : 1 ≤ k)
    (hex : readN k s = .ok s1)
    (_hfail : (Input.read_cplx_samples s1).1 =
      .error (.valueError (("End of file").toList))) :
    (Input.reconnect (Input.read_cplx_samples s1).2).1 = .ok true ∧
    (Input.reconnect (Input.read_cplx_samples s1).2).2 = s ∧
    s.connected = true ∧
    (∀ f, s.file = some f → f.pos = 0) ∧
    (∀ w, s.wav_file = some w → w.pos = 0) ∧
    (Input.read_cplx_samples
        (Input.reconnect (Input.read_cplx_samples s1).2).2).1 =
      (Input.read_cplx_samples s).1 ∧
    ∃ b : List ℕ,
      (Input.read_cplx_samples
        (Input.reconnect (Input.read_cplx_samples s1).2).2).1 =
        .ok (some b, 0) := by
  obtain ⟨hopen, hfix⟩ := init_state_fresh fsfile fname ncs dt sr cf s hinit
  have hopen1 : openHandles s1 := openHandles_readN k s s1 hex hopen
  have hopen2 : openHandles (Input.read_cplx_samples s1).2 :=
    openHandles_read s1 hopen1
  have hrec := reconnect_open _ hopen2
  have hstate : (Input.reconnect (Input.read_cplx_samples s1).2).2 = s := by
    rw [hrec]
    dsimp only
    rw [rewind_read s1, rewind_readN k s s1 hex, hfix]
  obtain ⟨k0, rfl⟩ : ∃ j, k = j + 1 := ⟨k - 1, by omega⟩
  obtain ⟨y, t', hr, _⟩ := readN_succ_ok hex
  obtain ⟨b, rfl⟩ := read_ok_shape s y hopen (by rw [hr])
  refine ⟨by rw [hrec], hstate, ?_, ?_, ?_, by rw [hstate], ?_⟩
  · rw [← hfix]
    rfl
  · intro f hf2
    have h5 : Option.map (fun f0 => { f0 with pos := 0 }) s.file = s.file :=
      congrArg InputState.file hfix
    rw [hf2] at h5
    have h6 := Option.some.inj h5
    exact (congrArg RawHandle.pos h6).symm
  · intro w hw2
    have h5 : Option.map (fun w0 => { w0 with pos := 0 }) s.wav_file =
        s.wav_file := congrArg InputState.wav_file hfix
    rw [hw2] at h5
    have h6 := Option.some.inj h5
    exact (congrArg WavHandle.pos h6).symm
  · exact ⟨b, by rw [hstate, hr]⟩

/-- Claim C6 witness: the 9-byte raw source, read to exhaustion in four
2-byte snapshots, reconnects back to its freshly-constructed state and
re-reads its first snapshot. -/
theorem claim_C6_witness :
    (Input.reconnect (Input.read_cplx_samples exampleRawRead).2).1 = .ok true ∧
    (Input.reconnect (Input.read_cplx_samples exampleRawRead).2).2 =
      exampleRawState ∧
    exampleRawState.connected = true ∧
    (∀ f, exampleRawState.file = some f → f.pos = 0) ∧
    (∀ w, exampleRawState.wav_file = some w → w.pos = 0) ∧
    (Input.read_cplx_samples
        (Input.reconnect (Input.read_cplx_samples exampleRawRead).2).2).1 =
      (Input.read_cplx_samples exampleRawState).1 ∧
    ∃ b : List ℕ,
      (Input.read_cplx_samples
        (Input.reconnect (Input.read_cplx_samples exampleRawRead).2).2).1 =
        .ok (some b, 0) :=
  claim_C6 (FsFile.raw [0, 1, 2, 3, 4, 5, 6, 7, 8]) (("f").toList) 1
    (("8t").toList) 0 0 exampleRawState exampleRawRead 4 (by rfl) (by decide)
    (by rfl) (by rfl)

/-- Claim C7 witness: the spec's own example
`x.cf100.cplx.48000.16tle`. -/
theorem claim_C7_witness :
    parse_filename (("x.cf100.cplx.48000.16tle").toList) =
      .ok (true, ("16tle").toList, true, 48000, 100 * 1000000) :=
  claim_C7 [("x").toList] (("100").toList) (("48000").toList)
    (("16tle").toList) (by decide) (by decide) (by decide) (by decide)
    (by decide) (by decide) (by decide) (by decide) (by decide)

/-- Claim C8 witness: the spec's own example `x.cf100.5.cplx.48000.8t`
resolves to `100.5e6`. -/
theorem claim_C8_witness :
    (parse_filename (("x.cf100.5.cplx.48000.8t").toList)).map
        (fun r => r.2.2.2.2) =
      .ok ((100 + 5 / 10 ^ 1) * 1000000) :=
  claim_C8 [("x").toList] (("100").toList) (("5").toList) (("cplx").toList)
    (("48000").toList) (("8t").toList) (by decide) (by decide) (by decide)
    (by decide) (by decide) (by decide) (by decide) (by decide)
    (by left; rfl) (by decide) (by decide) (by decide)

/-- Claim C9: `close` never raises (it is modelled total, since Python's
`close()` on file and wave objects is a documented no-op when already
closed), always clears the connected flag, and calling it twice gives the
same state as calling it once — for every state, so in particular after a
failed read or an earlier close. -/
theorem claim_C9 (s : InputState) :
    (Input.close s).connected = false ∧
    Input.close (Input.close s) = Input.close s := by
  obtain ⟨src, ncs, dt, sr, cf, bps, wv, fl, conn, slp⟩ := s
  cases wv with
  | some w => exact ⟨rfl, rfl⟩
  | none =>
    cases fl with
    | some f => exact ⟨rfl, rfl⟩
    | none => exact ⟨rfl, rfl⟩

/-- Claim C10 counterexample: the claim says `reconnect` always returns
`true`, even after `close`.  But on a raw source that has been closed,
`reconnect` raises `ValueError('seek of closed file')` from seeking the
closed file object instead of returning: here the constructed raw source is
closed and then reconnected, and the result is the exception, not `true`. -/
theorem claim_C10_counterexample :
    ((Input.init (FsFile.raw [0, 1, 2, 3, 4, 5, 6, 7, 8]) (("f").toList)
      1 (("8t").toList) 0 0).map
      (fun s => (Input.reconnect (Input.close s)).1)) =
      .ok (.error (.valueError (("seek of closed file").toList))) := by rfl

/-- Claim C10 amended: for every successfully constructed source exactly one
of the container handle and the raw handle is non-null; read, close and
reconnect never reset a handle field to null; and `reconnect` never takes
its both-handles-null fall-through branch — whenever it returns normally on
a state with a handle present, it returns `true`.  (The original claim's
"always returns true even after close" fails: after `close` on a raw source
`reconnect` raises instead of returning, see the counterexample.) -/
theorem claim_C10_amended :
    (∀ (fsfile : FsFile) (fname : List Char) (ncs : ℕ) (dt : List Char)
        (sr cf : ℚ) (s : InputState),
        Input.init fsfile fname ncs dt sr cf = .ok s →
        (s.wav_file.isSome = true ∧ s.file = none) ∨
          (s.wav_file = none ∧ s.file.isSome = true)) ∧
    (∀ t : InputState,
        (Input.read_cplx_samples t).2.wav_file.isSome = t.wav_file.isSome ∧
        (Input.read_cplx_samples t).2.file.isSome = t.file.isSome ∧
        (Input.close t).wav_file.isSome = t.wav_file.isSome ∧
        (Input.close t).file.isSome = t.file.isSome ∧
        (Input.reconnect t).2.wav_file.isSome = t.wav_file.isSome ∧
        (Input.reconnect t).2.file.isSome = t.file.isSome) ∧
    (∀ t : InputState, t.wav_file.isSome = true ∨ t.file.isSome = true →
        ∀ (b : Bool) (st : InputState),
          Input.reconnect t = (.ok b, st) → b = true) := by
  refine ⟨?_, ?_, ?_⟩
  · intro fsfile fname ncs dt sr cf s h
    cases fsfile with
    | missing => simp [Input.init, wave_open] at h
    | raw content =>
      obtain ⟨hw, hf, _⟩ := init_raw_shape h
      right
      rw [hw, hf]
      exact ⟨rfl, rfl⟩
    | wav nch sw fr frames =>
      simp only [Input.init, wave_open] at h
      by_cases h1 : nch ≠ 2
      · rw [if_pos h1] at h; cases h
      · rw [if_neg h1] at h
        by_cases h2 : 2 < sw
        · rw [if_pos h2] at h; cases h
        · rw [if_neg h2] at h
          cases h
          left
          exact ⟨rfl, rfl⟩
  · intro t
    exact ⟨(read_preserves_handles t).1, (read_preserves_handles t).2,
      (close_preserves_handles t).1, (close_preserves_handles t).2,
      (reconnect_preserves_handles t).1, (reconnect_preserves_handles t).2⟩
  · intro t hor b st heq
    obtain ⟨src, ncs, dt, sr, cf, bps, wv, fl, conn, slp⟩ := t
    cases wv with
    | some w =>
      simp only [Input.reconnect, Prod.mk.injEq] at heq
      exact (Except.ok.inj heq.1).symm
    | none =>
      cases fl with
      | some f =>
        obtain ⟨fc, fp, fcl⟩ := f
        cases fcl with
        | false =>
          simp [Input.reconnect, Prod.ext_iff] at heq
          exact heq.1
        | true => simp [Input.reconnect, Prod.ext_iff] at heq
      | none => simp at hor

/-- Claim C10 amended witness: the concrete raw source satisfies the
exactly-one-handle invariant, and its `reconnect` (before any close)
returns `true`. -/
theorem claim_C10_amended_witness :
    ((exampleRawState.wav_file.isSome = true ∧ exampleRawState.file = none) ∨
      (exampleRawState.wav_file = none ∧
        exampleRawState.file.isSome = true)) ∧ true = true :=
  ⟨claim_C10_amended.1 (FsFile.raw [0, 1, 2, 3, 4, 5, 6, 7, 8])
      (("f").toList) 1 (("8t").toList) 0 0 exampleRawState (by rfl),
   claim_C10_amended.2.2 exampleRawState (by right; rfl) true
      ⟨("f").toList, 1, ("8t").toList, 0, 0, 2, none,
       some ⟨[0, 1, 2, 3, 4, 5, 6, 7, 8], 0, false⟩, true, 0⟩ (by rfl)⟩
